import Mathlib

/-!
Shallow embedding of the BFPAttendance core (face recognition + attendance
reconciliation) from `face_recognition/face_service.py`, `routes/attendance.py`
and `routes/pending.py`.

Time model: an instant is an integer number of seconds; the calendar date of an
instant `t` is `t.fdiv 86400` (floor division, mirroring `datetime.date()`),
and its time-of-day is `t.emod 86400` (mirroring `datetime.time()`).
`datetime.combine(date, tod)` becomes `date * 86400 + tod`.

The recognition confidence stored on a record is never inspected by the
attendance logic (it is only stored), so the embedding is parametric in the
confidence type `C`; theorems hold for any `C` and witnesses instantiate it
with `ℕ`.
-/

/-- Seconds in a calendar day. -/
def secondsPerDay : ℤ := 86400

/-- `datetime.now().date()`: calendar date of an instant (floor division,
as Python's calendar never truncates toward zero). -/
def dateOf (t : ℤ) : ℤ := Int.fdiv t secondsPerDay

/-- `datetime.time()`: time of day in seconds of an instant. -/
def timeOfDay (t : ℤ) : ℤ := Int.emod t secondsPerDay

/-- `models.AttendanceStatus`. -/
inductive AttendanceStatus where
  | PRESENT
  | LATE
  | ABSENT
deriving DecidableEq, Repr

/-- `models.Attendance` row.  `date` is a calendar date, `time_in`/`time_out`
are nullable instants; `confidence_score` is a nullable value of the opaque
confidence type `C`. -/
structure Attendance (C : Type) where
  id : ℕ
  personnel_id : ℕ
  date : ℤ
  time_in : Option ℤ
  time_out : Option ℤ
  status : AttendanceStatus
  confidence_score : Option C
  is_auto_captured : Option Bool
  is_approved : Option Bool
  approved_by : Option ℕ
  time_in_image : Option String
  time_out_image : Option String
deriving DecidableEq, Repr

/-- `models.PendingAttendance` row; `attendance_type` is the
`TIME_IN`/`TIME_OUT` enum. -/
inductive AttType where
  | TIME_IN
  | TIME_OUT
deriving DecidableEq, Repr

structure PendingAttendance where
  id : ℕ
  personnel_id : ℕ
  date : ℤ
  attendance_type : AttType
  image_path : String
  notes : String
deriving DecidableEq, Repr

/-- The persisted attendance-side state: the personnel roster (ids only; the
rest of `models.Personnel` is never read by these operations), the attendance
table, the pending-approval table and the autoincrement counter. -/
structure DB (C : Type) where
  personnel : List ℕ
  records : List (Attendance C)
  pending : List PendingAttendance
  next_id : ℕ
deriving DecidableEq, Repr

/-- SQL `column >= bound` under NULL semantics: a NULL column never satisfies
the comparison (used by the cooldown-gate query in `process_attendance`). -/
def colGe (col : Option ℤ) (bound : ℤ) : Bool :=
  match col with
  | some v => decide (bound ≤ v)
  | none => false

/-- Row predicate of the cooldown-gate query
`Attendance.query.filter(personnel_id == pid, or_(time_in >= now - cd, time_out >= now - cd))`. -/
def recentPred (pid : ℕ) (bound : ℤ) (r : Attendance C) : Bool :=
  r.personnel_id == pid && (colGe r.time_in bound || colGe r.time_out bound)

/-- Row predicate of `Attendance.query.filter_by(personnel_id=pid, date=d)`. -/
def todayPred (pid : ℕ) (d : ℤ) (r : Attendance C) : Bool :=
  r.personnel_id == pid && r.date == d

/-- Outcome of `face_service.process_attendance` (the JSON payload fields the
spec's claims talk about: the `action` discriminator, remaining seconds and the
echoed `time_in`/`time_out`). -/
inductive AttOutcome where
  | error (msg : String)
  | cooldown (remaining : ℤ) (tin tout : Option ℤ)
  | already_recorded (tin tout : Option ℤ)
  | time_in (time : ℤ) (status : AttendanceStatus)
deriving DecidableEq, Repr

/-- `face_service.process_attendance(personnel_id, confidence, base64_image)`.

`cd` is config `ATTENDANCE_COOLDOWN` in seconds, `ws` is config
`WORK_START_TIME` as seconds-of-day, `img` is the value returned by
`save_attendance_image` (file I/O abstracted to the stored path),
`now` is `datetime.now()`.  The unordered `.first()` of the two queries is
modelled as `List.find?` in insertion order. -/
def process_attendance (cd ws : ℤ) (s : DB C) (pid : ℕ) (conf : C)
    (img : Option String) (now : ℤ) : AttOutcome × DB C :=
  if pid ∈ s.personnel then
    let today := dateOf now
    -- cooldown gate, global and cross-date, evaluated first
    match s.records.find? (recentPred pid (now - cd)) with
    | some r =>
      -- last_action = time_out if (time_out and time_out >= now - cd) else time_in
      let last := if colGe r.time_out (now - cd) then r.time_out else r.time_in
      match last with
      | some l => (.cooldown (cd - (now - l)) r.time_in r.time_out, s)
      | none => (.error "Error processing attendance", s)
    | none =>
      -- existing record for today?
      match s.records.find? (todayPred pid today) with
      | some a =>
        let last := match a.time_out with | some v => some v | none => a.time_in
        match last with
        | some l =>
          if now - l < cd then
            (.cooldown (cd - (now - l)) a.time_in a.time_out, s)
          else if a.time_out = none then
            (.already_recorded a.time_in none, s)
          else
            (.already_recorded a.time_in a.time_out, s)
        | none =>
          if a.time_out = none then
            (.already_recorded a.time_in none, s)
          else
            (.already_recorded a.time_in a.time_out, s)
      | none =>
        -- create the day's record
        let status := if ws < timeOfDay now then AttendanceStatus.LATE
                      else AttendanceStatus.PRESENT
        let newRec : Attendance C :=
          { id := s.next_id
            personnel_id := pid
            date := today
            time_in := some now
            time_out := none
            status := status
            confidence_score := some conf
            is_auto_captured := none
            is_approved := none
            approved_by := none
            time_in_image := img
            time_out_image := none }
        (.time_in now status,
          { s with records := s.records ++ [newRec], next_id := s.next_id + 1 })
  else (.error "Personnel not found", s)

/-- Outcome of the manual-entry route `routes/attendance.py::manual` (POST). -/
inductive ManualOutcome where
  | personnelNotFound
  | accessDenied
  | alreadyExists
  | created
deriving DecidableEq, Repr

/-- `routes/attendance.py::manual` (POST branch).  `tin`/`tout` are the form's
`%H:%M` times as seconds-of-day; `accessOk` abstracts the
`current_user.is_admin or personnel.station_id == current_user.id` check;
`approver` is `current_user.id`. -/
def manual (s : DB C) (pid : ℕ) (adate : ℤ) (tin tout : Option ℤ)
    (st : AttendanceStatus) (accessOk : Bool) (approver : ℕ) :
    ManualOutcome × DB C :=
  if pid ∈ s.personnel then
    if accessOk then
      if (s.records.find? (todayPred pid adate)).isSome then
        (.alreadyExists, s)
      else
        let newRec : Attendance C :=
          { id := s.next_id
            personnel_id := pid
            date := adate
            time_in := tin.map (fun t => adate * secondsPerDay + t)
            time_out := tout.map (fun t => adate * secondsPerDay + t)
            status := st
            confidence_score := none
            is_auto_captured := some false
            is_approved := some true
            approved_by := some approver
            time_in_image := none
            time_out_image := none }
        (.created,
          { s with records := s.records ++ [newRec], next_id := s.next_id + 1 })
    else (.accessDenied, s)
  else (.personnelNotFound, s)

/-- Replace the first element satisfying `p` by its image under `f`
(SQLAlchemy's in-place mutation of the single row returned by `.first()`). -/
def updateFirst (p : α → Bool) (f : α → α) : List α → List α
  | [] => []
  | a :: l => if p a then f a :: l else a :: updateFirst p f l

/-- Outcome of `routes/pending.py::approve`. -/
inductive ApproveOutcome where
  | accessDenied
  | requestNotFound
  | timeInAlreadyRecorded
  | timeOutAlreadyRecorded
  | approved
deriving DecidableEq, Repr

/-- `routes/pending.py::approve(request_id)`.  `adm` is
`current_user.is_admin`, `uid` is `current_user.id`, `now` is
`datetime.now()` (the approved field is set to the approval instant, not the
photographed one). -/
def approve (s : DB C) (rid : ℕ) (adm : Bool) (uid : ℕ) (now : ℤ) :
    ApproveOutcome × DB C :=
  if adm then
    match s.pending.find? (fun p => p.id == rid) with
    | none => (.requestNotFound, s)
    | some preq =>
      match s.records.find? (todayPred preq.personnel_id preq.date) with
      | some ex =>
        match preq.attendance_type with
        | .TIME_IN =>
          if ex.time_in.isSome then (.timeInAlreadyRecorded, s)
          else
            (.approved,
              { s with
                records := updateFirst (todayPred preq.personnel_id preq.date)
                  (fun r => { r with
                    time_in := some now
                    time_in_image := some preq.image_path
                    is_approved := some true
                    approved_by := some uid }) s.records
                pending := s.pending.eraseP (fun p => p.id == rid) })
        | .TIME_OUT =>
          if ex.time_out.isSome then (.timeOutAlreadyRecorded, s)
          else
            (.approved,
              { s with
                records := updateFirst (todayPred preq.personnel_id preq.date)
                  (fun r => { r with
                    time_out := some now
                    time_out_image := some preq.image_path
                    is_approved := some true
                    approved_by := some uid }) s.records
                pending := s.pending.eraseP (fun p => p.id == rid) })
      | none =>
        let base : Attendance C :=
          { id := s.next_id
            personnel_id := preq.personnel_id
            date := preq.date
            time_in := none
            time_out := none
            status := AttendanceStatus.PRESENT
            confidence_score := none
            is_auto_captured := some false
            is_approved := some true
            approved_by := some uid
            time_in_image := none
            time_out_image := none }
        let newRec :=
          match preq.attendance_type with
          | .TIME_IN => { base with
              time_in := some now, time_in_image := some preq.image_path }
          | .TIME_OUT => { base with
              time_out := some now, time_out_image := some preq.image_path }
        (.approved,
          { s with
            records := s.records ++ [newRec]
            pending := s.pending.eraseP (fun p => p.id == rid)
            next_id := s.next_id + 1 })
  else (.accessDenied, s)

/-- Outcome of `routes/pending.py::reject`. -/
inductive RejectOutcome where
  | accessDenied
  | requestNotFound
  | rejected
deriving DecidableEq, Repr

/-- `routes/pending.py::reject(request_id)`: log, delete the stored image
(file I/O out of scope) and delete the pending row; the attendance table is
never touched. -/
def reject (s : DB C) (rid : ℕ) (adm : Bool) : RejectOutcome × DB C :=
  if adm then
    match s.pending.find? (fun p => p.id == rid) with
    | none => (.requestNotFound, s)
    | some _ =>
      (.rejected, { s with pending := s.pending.eraseP (fun p => p.id == rid) })
  else (.accessDenied, s)

/-- Invariant I1: no two attendance rows share (personnel key, date). -/
def UniquePerDay (s : DB C) : Prop :=
  s.records.Pairwise (fun a b => ¬(a.personnel_id = b.personnel_id ∧ a.date = b.date))

instance (s : DB C) : Decidable (UniquePerDay s) := by
  unfold UniquePerDay
  exact List.instDecidablePairwise s.records

/-- Invariant I2: whenever both times are set on a row, time-out is ≥ time-in. -/
def TimesOrdered (s : DB C) : Prop :=
  ∀ r ∈ s.records, ∀ ti tou : ℤ, r.time_in = some ti → r.time_out = some tou → ti ≤ tou

/-- All time-in/time-out instants of a person across all their rows (the pool
the cross-date cooldown gate draws from). -/
def actionInstants (s : DB C) (pid : ℕ) : List ℤ :=
  s.records.flatMap (fun r =>
    if r.personnel_id = pid then r.time_in.toList ++ r.time_out.toList else [])

/-- The row built by the record-creation branch of `process_attendance`
(`Attendance(personnel_id=..., date=today, time_in=current_time, status=...,
confidence_score=confidence, time_in_image=image_path)`). -/
def newAttendanceRecord (ws : ℤ) (s : DB C) (pid : ℕ) (conf : C)
    (img : Option String) (now : ℤ) : Attendance C :=
  { id := s.next_id
    personnel_id := pid
    date := dateOf now
    time_in := some now
    time_out := none
    status := if ws < timeOfDay now then AttendanceStatus.LATE
              else AttendanceStatus.PRESENT
    confidence_score := some conf
    is_auto_captured := none
    is_approved := none
    approved_by := none
    time_in_image := img
    time_out_image := none }

/-- Sample rows and state used by the concrete witnesses: two persons, one
closed record of person 7 on day 0, one pending time-out request of person 7
for day 1. -/
def wRec : Attendance ℕ :=
  ⟨0, 7, 0, some 30000, some 32000, .PRESENT, some 5, none, none, none, none, none⟩

def wPending : PendingAttendance := ⟨1, 7, 1, .TIME_OUT, "img", ""⟩

def wDB : DB ℕ := ⟨[7, 8], [wRec], [wPending], 2⟩

/-- An empty roster state with a single enrolled person and no records. -/
def wEmpty : DB ℕ := ⟨[7], [], [], 0⟩

/-- An open attendance row of person 7 on day 1: time-in at 100000, no
time-out. -/
def wOpenRec : Attendance ℕ :=
  ⟨0, 7, 1, some 100000, none, .PRESENT, some 5, none, none, none, none, none⟩

/-- A state with the open record of person 7 and a pending time-out request
for the same (person, date). -/
def wOpenDB : DB ℕ := ⟨[7], [wOpenRec], [wPending], 2⟩

/-- A state holding exactly one open record of person 7: time-in at instant
100000 (a time-of-day of 13600 s on day 1), no time-out. -/
def wSingle : DB ℕ :=
  ⟨[7], [⟨0, 7, 1, some 100000, none, .PRESENT, some 5, none, none, none,
    none, none⟩], [], 1⟩

/-- A state of person 7 with two rows whose actions both fall inside a 60 s
window before instant 200000: the earlier row (day 1) got its time-out at
199950 (as an approval would set it), the later row (day 2, today) got its
time-in at 199995 (as a manual entry would).  The most recent action is
199995, but the cooldown-gate query returns the first matching row, whose
recent action is 199950. -/
def wTwoRecent : DB ℕ :=
  ⟨[7],
   [⟨0, 7, 1, some 100000, some 199950, .PRESENT, some 5, none, some true,
     some 9, none, none⟩,
    ⟨1, 7, 2, some 199995, none, .PRESENT, none, some false, some true,
     some 9, none, none⟩],
   [], 2⟩

/-!
### Similarity scorer and recognizer (`face_service.compare_embeddings`,
`face_service.recognize_face`)

Embeddings are modelled as `List ℝ` (numpy's `.flatten()` makes every input
1-D, so a shape mismatch is exactly a length mismatch).  Float arithmetic is
idealised as real arithmetic, hence these definitions are noncomputable.
-/

section FaceDefs

open Classical

/-- `np.dot` on 1-D arrays. -/
def dotp (a b : List ℝ) : ℝ := (List.zipWith (· * ·) a b).sum

/-- `np.linalg.norm`: Euclidean norm. -/
noncomputable def l2norm (a : List ℝ) : ℝ := Real.sqrt (dotp a a)

/-- `face_service.compare_embeddings(emb1, emb2, threshold)`: returns the
(similarity, is_match) pair.  Shape mismatch and zero-norm inputs yield
`(0, false)`; otherwise cosine similarity and `is_match = (similarity ≥ threshold)`. -/
noncomputable def compare_embeddings (emb1 emb2 : List ℝ) (threshold : ℝ) :
    ℝ × Bool :=
  if emb1.length ≠ emb2.length then (0, false)
  else
    let dot_product := dotp emb1 emb2
    let norm1 := l2norm emb1
    let norm2 := l2norm emb2
    if norm1 = 0 ∨ norm2 = 0 then (0, false)
    else
      let similarity := dot_product / (norm1 * norm2)
      (similarity, decide (similarity ≥ threshold))

/-- One entry of the in-memory face database built by
`face_service.load_face_database`: `{"name": ..., "embeddings": [...]}`.
Entries of the embedding list can be `None` (skipped by the recognizer). -/
structure PersonEntry where
  name : String
  embeddings : List (Option (List ℝ))

/-- One step of the recognizer's inner loop: `if match and similarity >
max_similarity: update`. -/
noncomputable def recognizeStep (emb : List ℝ) (threshold : ℝ)
    (st : Option ℕ × ℝ) (pe : ℕ × List ℝ) : Option ℕ × ℝ :=
  let c := compare_embeddings emb pe.2 threshold
  if c.2 = true ∧ st.2 < c.1 then (some pe.1, c.1) else st

/-- `face_service.recognize_face(face_embedding, face_database, threshold)`.
The Python dict is insertion-ordered, hence the association-list model. -/
noncomputable def recognize_face (face_embedding : Option (List ℝ))
    (face_database : List (ℕ × PersonEntry)) (threshold : ℝ) :
    Option ℕ × ℝ :=
  match face_embedding with
  | none => (none, 0)
  | some emb =>
    if face_database.isEmpty then (none, 0)
    else
      face_database.foldl (fun st pd =>
        if pd.2.embeddings.isEmpty then st
        else pd.2.embeddings.foldl (fun st' dbEmb =>
          match dbEmb with
          | none => st'
          | some e => recognizeStep emb threshold st' (pd.1, e)) st)
        ((none : Option ℕ), (0 : ℝ))

/-- The flattened (person, template) iteration sequence of the recognizer's
nested loops, in iteration order, with `None` templates dropped. -/
def templatePairs (face_database : List (ℕ × PersonEntry)) :
    List (ℕ × List ℝ) :=
  face_database.flatMap (fun pd =>
    pd.2.embeddings.filterMap (fun o => o.map (fun e => (pd.1, e))))

/-- Left-to-right scan of the flattened sequence; `recognize_face` is proved
equal to it below. -/
noncomputable def recognizeScan (emb : List ℝ) (threshold : ℝ)
    (st : Option ℕ × ℝ) (pairs : List (ℕ × List ℝ)) : Option ℕ × ℝ :=
  pairs.foldl (recognizeStep emb threshold) st

/-- The similarity the recognizer computes for one flattened pair. -/
noncomputable def pairSim (emb : List ℝ) (threshold : ℝ) (q : ℕ × List ℝ) : ℝ :=
  (compare_embeddings emb q.2 threshold).1

/-- Whether one flattened pair clears the threshold. -/
noncomputable def pairMatch (emb : List ℝ) (threshold : ℝ) (q : ℕ × List ℝ) :
    Bool :=
  (compare_embeddings emb q.2 threshold).2

/-- A one-person face database used by the recognizer witness. -/
noncomputable def wFaceDB : List (ℕ × PersonEntry) :=
  [(3, ⟨"a", [some [1, 0]]⟩)]


/-!
### Enrollment (`face_service.register_face`)

A raster is represented by the outcome of running detection + extraction on
it (`process_base64_image`): `none` when no face/embedding was produced, and
`some e` with the extracted embedding otherwise.  The generated unique
filename of raster `i` is modelled as the index `i` itself.  The embedding
payload is opaque to the enrollment logic, so it is a type parameter `E`.
-/

/-- One `models.FaceData` row. -/
structure FaceDataRow (E : Type) where
  personnel_id : ℕ
  filename : ℕ
  embedding : E
deriving DecidableEq, Repr

/-- Face-enrollment side of the store: roster, `face_data` table and each
person's canonical display photo (`Personnel.image_path`), as the filename it
points to. -/
structure FaceStore (E : Type) where
  personnel : List ℕ
  face_data : List (FaceDataRow E)
  profile_image : ℕ → Option ℕ

/-- Outcome of `face_service.register_face`: the success payload carries
`len(registered_images)` and the registered filenames. -/
inductive RegisterOutcome where
  | personnelNotFound
  | registered (count : ℕ) (filenames : List ℕ)
deriving DecidableEq, Repr

/-- The loop of `register_face`: for each raster in order, skip it if no
embedding was extracted, otherwise accept it (keeping its index as filename
together with its embedding). -/
def acceptedImages (imgs : List (Option E)) : List (ℕ × E) :=
  imgs.enum.filterMap (fun ie => ie.2.map (fun e => (ie.1, e)))

/-- `face_service.register_face(personnel_id, base64_images)`: persist one
`FaceData` row per accepted raster, and when at least one was accepted set the
person's display photo to the first accepted raster. -/
def register_face (s : FaceStore E) (pid : ℕ) (imgs : List (Option E)) :
    RegisterOutcome × FaceStore E :=
  if pid ∈ s.personnel then
    let accepted := acceptedImages imgs
    let registered := accepted.map Prod.fst
    let s' : FaceStore E :=
      { personnel := s.personnel
        face_data := s.face_data ++
          accepted.map (fun ie => ⟨pid, ie.1, ie.2⟩)
        profile_image :=
          match registered.head? with
          | some first => fun q => if q = pid then some first else s.profile_image q
          | none => s.profile_image }
    (.registered registered.length registered, s')
  else (.personnelNotFound, s)

end FaceDefs

/-- An empty face store with one enrolled person, used by the enrollment
witness. -/
def wFaceStore : FaceStore ℕ := ⟨[7], [], fun _ => none⟩

/-!
## Theorems

Generic list lemmas about `find?`, `updateFirst` and `Pairwise`, then the
claims.
-/

theorem mem_updateFirst {α} {p : α → Bool} {f : α → α} {l : List α} {b : α}
    (hb : b ∈ updateFirst p f l) : b ∈ l ∨ ∃ a ∈ l, b = f a := by
  induction l with
  | nil => simp [updateFirst] at hb
  | cons a l ih =>
    rw [updateFirst] at hb
    by_cases hpa : p a = true
    · rw [if_pos hpa] at hb
      rcases List.mem_cons.mp hb with rfl | hb
      · exact Or.inr ⟨a, by simp, rfl⟩
      · exact Or.inl (List.mem_cons_of_mem _ hb)
    · rw [if_neg hpa] at hb
      rcases List.mem_cons.mp hb with rfl | hb
      · exact Or.inl (by simp)
      · rcases ih hb with h | ⟨a', ha', rfl⟩
        · exact Or.inl (List.mem_cons_of_mem _ h)
        · exact Or.inr ⟨a', List.mem_cons_of_mem _ ha', rfl⟩

theorem pairwise_updateFirst {α} {R : α → α → Prop} {p : α → Bool} {f : α → α}
    {l : List α} (hfr : ∀ a b, R a b → R a (f b))
    (hfl : ∀ a b, R a b → R (f a) b)
    (h : l.Pairwise R) : (updateFirst p f l).Pairwise R := by
  induction l with
  | nil => exact h
  | cons a l ih =>
    rcases List.pairwise_cons.mp h with ⟨ha, hl⟩
    rw [updateFirst]
    by_cases hpa : p a = true
    · rw [if_pos hpa]
      exact List.pairwise_cons.mpr ⟨fun b hb => hfl a b (ha b hb), hl⟩
    · rw [if_neg hpa]
      refine List.pairwise_cons.mpr ⟨?_, ih hl⟩
      intro b hb
      rcases mem_updateFirst hb with h' | ⟨a', ha', rfl⟩
      · exact ha b h'
      · exact hfr a a' (ha a' ha')

theorem find?_decomp {α} {p : α → Bool} {l : List α} {a : α}
    (h : l.find? p = some a) :
    ∃ l₁ l₂, l = l₁ ++ a :: l₂ ∧ ∀ x ∈ l₁, p x = false := by
  induction l with
  | nil => simp [List.find?] at h
  | cons b l ih =>
    by_cases hpb : p b = true
    · rw [List.find?_cons_of_pos _ hpb] at h
      obtain rfl : b = a := by simpa using h
      exact ⟨[], l, rfl, by simp⟩
    · rw [List.find?_cons_of_neg _ hpb] at h
      rcases ih h with ⟨l₁, l₂, rfl, h₁⟩
      refine ⟨b :: l₁, l₂, rfl, ?_⟩
      intro x hx
      rcases List.mem_cons.mp hx with rfl | hx
      · exact Bool.eq_false_iff.mpr hpb
      · exact h₁ x hx

theorem updateFirst_append_cons {α} {p : α → Bool} {f : α → α}
    {l₁ l₂ : List α} {a : α} (h₁ : ∀ x ∈ l₁, p x = false) (ha : p a = true) :
    updateFirst p f (l₁ ++ a :: l₂) = l₁ ++ f a :: l₂ := by
  induction l₁ with
  | nil => simp [updateFirst, ha]
  | cons b l₁ ih =>
    have hb : p b = false := h₁ b (by simp)
    simp only [List.cons_append, updateFirst, hb]
    simp [ih (fun x hx => h₁ x (by simp [hx]))]

theorem pairwise_append_single {α} {R : α → α → Prop} {l : List α} {x : α}
    (h : l.Pairwise R) (hx : ∀ a ∈ l, R a x) : (l ++ [x]).Pairwise R := by
  rw [List.pairwise_append]
  refine ⟨h, List.pairwise_singleton R x, fun a ha b hb => ?_⟩
  rcases List.mem_singleton.mp hb with rfl
  exact hx a ha

/-- `todayPred` read back as a proposition. -/
theorem todayPred_eq_false_iff {pid : ℕ} {d : ℤ} {r : Attendance C} :
    todayPred pid d r = false ↔ ¬(r.personnel_id = pid ∧ r.date = d) := by
  simp [todayPred]

/-- The post-state of `process_attendance` is either the pre-state, or the
pre-state with one fresh record for `(pid, dateOf now)` appended, the latter
only when no record for that key existed. -/
theorem process_attendance_state_cases (cd ws : ℤ) (s : DB C) (pid : ℕ)
    (conf : C) (img : Option String) (now : ℤ) :
    (process_attendance cd ws s pid conf img now).2 = s ∨
    (s.records.find? (todayPred pid (dateOf now)) = none ∧
      ∃ rec : Attendance C, rec.personnel_id = pid ∧ rec.date = dateOf now ∧
        rec.time_out = none ∧
        (process_attendance cd ws s pid conf img now).2.records
          = s.records ++ [rec] ∧
        (process_attendance cd ws s pid conf img now).2.pending = s.pending) := by
  unfold process_attendance
  by_cases hmem : pid ∈ s.personnel
  · simp only [if_pos hmem]
    rcases hg : s.records.find? (recentPred pid (now - cd)) with _ | r
    · rcases ht : s.records.find? (todayPred pid (dateOf now)) with _ | a
      · exact Or.inr ⟨rfl, _, rfl, rfl, rfl, rfl, rfl⟩
      · left
        dsimp only
        split
        · split_ifs <;> rfl
        · split_ifs <;> rfl
    · left
      dsimp only
      split <;> rfl
  · simp [if_neg hmem]

theorem find?_eq_none_todayPred {s : DB C} {pid : ℕ} {d : ℤ}
    (hfind : s.records.find? (todayPred pid d) = none) :
    ∀ a ∈ s.records, ¬(a.personnel_id = pid ∧ a.date = d) := by
  intro a ha
  have hne := List.find?_eq_none.mp hfind a ha
  have hf : todayPred pid d a = false := by
    cases hpa : todayPred pid d a
    · rfl
    · exact absurd hpa hne
  exact todayPred_eq_false_iff.mp hf

theorem process_attendance_preserves_unique (cd ws : ℤ) (s : DB C) (pid : ℕ)
    (conf : C) (img : Option String) (now : ℤ) (h : UniquePerDay s) :
    UniquePerDay (process_attendance cd ws s pid conf img now).2 := by
  rcases process_attendance_state_cases cd ws s pid conf img now with
    heq | ⟨hfind, rec, hpid, hdate, -, hrecs, -⟩
  · rw [heq]; exact h
  · unfold UniquePerDay at h ⊢
    rw [hrecs]
    refine pairwise_append_single h ?_
    intro a ha hcontra
    exact find?_eq_none_todayPred hfind a ha ⟨hcontra.1.trans hpid, hcontra.2.trans hdate⟩

theorem manual_state_cases (s : DB C) (pid : ℕ) (adate : ℤ)
    (tin tout : Option ℤ) (st : AttendanceStatus) (accessOk : Bool)
    (approver : ℕ) :
    (manual s pid adate tin tout st accessOk approver).2 = s ∨
    (s.records.find? (todayPred pid adate) = none ∧
      ∃ rec : Attendance C, rec.personnel_id = pid ∧ rec.date = adate ∧
        (manual s pid adate tin tout st accessOk approver).2.records
          = s.records ++ [rec] ∧
        (manual s pid adate tin tout st accessOk approver).2.pending
          = s.pending) := by
  unfold manual
  by_cases hmem : pid ∈ s.personnel
  · rw [if_pos hmem]
    by_cases hacc : accessOk = true
    · rw [if_pos hacc]
      by_cases hs : (s.records.find? (todayPred pid adate)).isSome = true
      · rw [if_pos hs]
        exact Or.inl rfl
      · rw [if_neg hs]
        have hnone : s.records.find? (todayPred pid adate) = none := by
          simpa using hs
        exact Or.inr ⟨hnone, _, rfl, rfl, rfl, rfl⟩
    · rw [if_neg hacc]
      exact Or.inl rfl
  · rw [if_neg hmem]
    exact Or.inl rfl

theorem manual_preserves_unique (s : DB C) (pid : ℕ) (adate : ℤ)
    (tin tout : Option ℤ) (st : AttendanceStatus) (accessOk : Bool)
    (approver : ℕ) (h : UniquePerDay s) :
    UniquePerDay (manual s pid adate tin tout st accessOk approver).2 := by
  rcases manual_state_cases s pid adate tin tout st accessOk approver with
    heq | ⟨hfind, rec, hpid, hdate, hrecs, -⟩
  · rw [heq]; exact h
  · unfold UniquePerDay at h ⊢
    rw [hrecs]
    refine pairwise_append_single h ?_
    intro a ha hcontra
    exact find?_eq_none_todayPred hfind a ha ⟨hcontra.1.trans hpid, hcontra.2.trans hdate⟩

theorem approve_preserves_unique (s : DB C) (rid : ℕ) (adm : Bool) (uid : ℕ)
    (now : ℤ) (h : UniquePerDay s) :
    UniquePerDay (approve s rid adm uid now).2 := by
  unfold approve
  by_cases hadm : adm = true
  · rw [if_pos hadm]
    split
    · exact h
    · rename_i preq hp
      split
      · rename_i ex hr
        split
        · split
          · exact h
          · exact pairwise_updateFirst (fun _ _ hab => hab) (fun _ _ hab => hab) h
        · split
          · exact h
          · exact pairwise_updateFirst (fun _ _ hab => hab) (fun _ _ hab => hab) h
      · rename_i hr
        split
        · exact pairwise_append_single h
            (fun a ha hc => find?_eq_none_todayPred hr a ha ⟨hc.1, hc.2⟩)
        · exact pairwise_append_single h
            (fun a ha hc => find?_eq_none_todayPred hr a ha ⟨hc.1, hc.2⟩)
  · rw [if_neg hadm]
    exact h

/-- C1: every record-creating path (automatic `process_attendance`, the
manual-entry route and the pending-approval route) first checks for an
existing record for the same (personnel key, calendar date) and either
rejects or updates in place, so each of them preserves invariant I1: no two
attendance records ever share (person key, date). -/
theorem attendance_unique_per_person_day {C : Type} (cd ws : ℤ) (s : DB C)
    (pid : ℕ) (conf : C) (img : Option String) (now : ℤ)
    (pid2 : ℕ) (adate : ℤ) (tin tout : Option ℤ) (st : AttendanceStatus)
    (accessOk : Bool) (approver : ℕ)
    (rid : ℕ) (adm : Bool) (uid : ℕ) (anow : ℤ)
    (h : UniquePerDay s) :
    UniquePerDay (process_attendance cd ws s pid conf img now).2 ∧
    UniquePerDay (manual s pid2 adate tin tout st accessOk approver).2 ∧
    UniquePerDay (approve s rid adm uid anow).2 :=
  ⟨process_attendance_preserves_unique cd ws s pid conf img now h,
   manual_preserves_unique s pid2 adate tin tout st accessOk approver h,
   approve_preserves_unique s rid adm uid anow h⟩

/-- Witness for C1 at a concrete state: the three operations each run on
`wDB` (all three actually mutate it) and uniqueness is preserved. -/
theorem attendance_unique_per_person_day_witness :
    UniquePerDay wDB ∧
    (UniquePerDay (process_attendance 60 28800 wDB 7 5 none 200000).2 ∧
     UniquePerDay (manual wDB 8 5 (some 28800) (some 61200)
       AttendanceStatus.PRESENT true 1).2 ∧
     UniquePerDay (approve wDB 1 true 9 120000).2) :=
  ⟨by decide, attendance_unique_per_person_day 60 28800 wDB 7 5 none 200000
    8 5 (some 28800) (some 61200) AttendanceStatus.PRESENT true 1
    1 true 9 120000 (by decide)⟩

theorem todayPred_eq_true_iff {pid : ℕ} {d : ℤ} {r : Attendance C} :
    todayPred pid d r = true ↔ (r.personnel_id = pid ∧ r.date = d) := by
  simp [todayPred]

theorem colGe_eq_true_iff {o : Option ℤ} {b : ℤ} :
    colGe o b = true ↔ ∃ v, o = some v ∧ b ≤ v := by
  cases o <;> simp [colGe]

theorem find?_todayPred_eq_none {l : List (Attendance C)} {pid : ℕ} {d : ℤ}
    (h : ∀ r ∈ l, ¬(r.personnel_id = pid ∧ r.date = d)) :
    l.find? (todayPred pid d) = none := by
  rw [List.find?_eq_none]
  intro r hr hp
  exact h r hr (todayPred_eq_true_iff.mp hp)

theorem find?_recentPred_eq_none {l : List (Attendance C)} {pid : ℕ} {bound : ℤ}
    (h : ∀ r ∈ l, r.personnel_id = pid →
      (∀ v : ℤ, r.time_in = some v → v < bound) ∧
      (∀ v : ℤ, r.time_out = some v → v < bound)) :
    l.find? (recentPred pid bound) = none := by
  rw [List.find?_eq_none]
  intro r hr hp
  unfold recentPred at hp
  rw [Bool.and_eq_true, beq_iff_eq] at hp
  obtain ⟨hpid, hor⟩ := hp
  rcases Bool.or_eq_true _ _ |>.mp hor with hc | hc
  · obtain ⟨v, hv, hbv⟩ := colGe_eq_true_iff.mp hc
    exact absurd hbv (not_le.mpr ((h r hr hpid).1 v hv))
  · obtain ⟨v, hv, hbv⟩ := colGe_eq_true_iff.mp hc
    exact absurd hbv (not_le.mpr ((h r hr hpid).2 v hv))

theorem mem_actionInstants {s : DB C} {pid : ℕ} {t : ℤ} :
    t ∈ actionInstants s pid ↔
      ∃ r ∈ s.records, r.personnel_id = pid ∧
        (r.time_in = some t ∨ r.time_out = some t) := by
  unfold actionInstants
  simp only [List.mem_flatMap]
  constructor
  · rintro ⟨r, hr, ht⟩
    by_cases hpid : r.personnel_id = pid
    · rw [if_pos hpid] at ht
      rcases List.mem_append.mp ht with h | h
      · exact ⟨r, hr, hpid, Or.inl (by simpa using h)⟩
      · exact ⟨r, hr, hpid, Or.inr (by simpa using h)⟩
    · rw [if_neg hpid] at ht
      cases ht
  · rintro ⟨r, hr, hpid, h⟩
    refine ⟨r, hr, ?_⟩
    rw [if_pos hpid]
    rcases h with h | h
    · exact List.mem_append.mpr (Or.inl (by simp [h]))
    · exact List.mem_append.mpr (Or.inr (by simp [h]))

theorem find?_recentPred_eq_none_of_actions {s : DB C} {pid : ℕ} {bound : ℤ}
    (h : ∀ t ∈ actionInstants s pid, t < bound) :
    s.records.find? (recentPred pid bound) = none :=
  find?_recentPred_eq_none (fun r hr hpid =>
    ⟨fun v hv => h v (mem_actionInstants.mpr ⟨r, hr, hpid, Or.inl hv⟩),
     fun v hv => h v (mem_actionInstants.mpr ⟨r, hr, hpid, Or.inr hv⟩)⟩)

theorem process_attendance_creates (cd ws : ℤ) (s : DB C) (pid : ℕ) (conf : C)
    (img : Option String) (now : ℤ)
    (hp : pid ∈ s.personnel)
    (hgate : s.records.find? (recentPred pid (now - cd)) = none)
    (hnone : s.records.find? (todayPred pid (dateOf now)) = none) :
    process_attendance cd ws s pid conf img now =
      (.time_in now (newAttendanceRecord ws s pid conf img now).status,
       { s with records := s.records ++ [newAttendanceRecord ws s pid conf img now]
                next_id := s.next_id + 1 }) := by
  unfold process_attendance
  rw [if_pos hp, hgate]
  dsimp only
  rw [hnone]
  rfl

/-- C2: starting from a state with no attendance record for today and no
recent action for the person, two `process_attendance` calls in immediate
succession (the second within the cooldown duration of the first) yield
`time_in` then `cooldown`, and exactly one attendance record is created
across the two calls. -/
theorem process_attendance_double_trigger {C : Type} (cd ws : ℤ) (s : DB C)
    (pid : ℕ) (c1 c2 : C) (i1 i2 : Option String) (now1 now2 : ℤ)
    (hp : pid ∈ s.personnel)
    (hnorecent : ∀ t ∈ actionInstants s pid, t < now1 - cd)
    (hnotoday : ∀ r ∈ s.records, ¬(r.personnel_id = pid ∧ r.date = dateOf now1))
    (h12 : now1 ≤ now2) (hcd : now2 - now1 < cd) :
    (∃ st, (process_attendance cd ws s pid c1 i1 now1).1 = .time_in now1 st) ∧
    (process_attendance cd ws (process_attendance cd ws s pid c1 i1 now1).2
        pid c2 i2 now2).1
      = .cooldown (cd - (now2 - now1)) (some now1) none ∧
    (process_attendance cd ws (process_attendance cd ws s pid c1 i1 now1).2
        pid c2 i2 now2).2.records.length = s.records.length + 1 := by
  have hgate1 := find?_recentPred_eq_none_of_actions hnorecent
  have htoday1 := find?_todayPred_eq_none hnotoday
  have h1 := process_attendance_creates cd ws s pid c1 i1 now1 hp hgate1 htoday1
  set newRec := newAttendanceRecord ws s pid c1 i1 now1 with hnewRec
  have hs1 : (process_attendance cd ws s pid c1 i1 now1).2
      = { s with records := s.records ++ [newRec], next_id := s.next_id + 1 } := by
    rw [h1]
  have hfind2 : (s.records ++ [newRec]).find? (recentPred pid (now2 - cd))
      = some newRec := by
    rw [List.find?_append]
    have hold : s.records.find? (recentPred pid (now2 - cd)) = none :=
      find?_recentPred_eq_none (fun r hr hpid => by
        have hlt : ∀ t ∈ actionInstants s pid, t < now2 - cd := fun t ht =>
          lt_of_lt_of_le (hnorecent t ht) (by omega)
        exact ⟨fun v hv => hlt v (mem_actionInstants.mpr ⟨r, hr, hpid, Or.inl hv⟩),
               fun v hv => hlt v (mem_actionInstants.mpr ⟨r, hr, hpid, Or.inr hv⟩)⟩)
    rw [hold, Option.none_or]
    rw [List.find?_cons_of_pos]
    simp only [recentPred, hnewRec, newAttendanceRecord, colGe, beq_self_eq_true,
      Bool.true_and, Bool.or_eq_true, decide_eq_true_eq]
    left
    omega
  have h2 : process_attendance cd ws
      ({ s with records := s.records ++ [newRec], next_id := s.next_id + 1 })
      pid c2 i2 now2
      = (.cooldown (cd - (now2 - now1)) (some now1) none,
         { s with records := s.records ++ [newRec], next_id := s.next_id + 1 }) := by
    unfold process_attendance
    rw [if_pos hp]
    dsimp only
    rw [hfind2, hnewRec]
    rfl
  refine ⟨⟨_, by rw [h1]⟩, ?_, ?_⟩
  · rw [hs1, h2]
  · rw [hs1, h2]
    simp

/-- Witness for C2 at a concrete state: person 7 in `wDB`, whose last action
was at 32000, triggers at 200000 and again 30 s later. -/
theorem process_attendance_double_trigger_witness :
    (∀ t ∈ actionInstants wDB 7, t < 200000 - 60) ∧
    ((∃ st, (process_attendance 60 28800 wDB 7 5 none 200000).1
        = .time_in 200000 st) ∧
     (process_attendance 60 28800
        (process_attendance 60 28800 wDB 7 5 none 200000).2 7 6 none 200030).1
       = .cooldown (60 - (200030 - 200000)) (some 200000) none ∧
     (process_attendance 60 28800
        (process_attendance 60 28800 wDB 7 5 none 200000).2 7 6 none 200030
       ).2.records.length = wDB.records.length + 1) :=
  ⟨by decide, process_attendance_double_trigger 60 28800 wDB 7 5 6 none none
    200000 200030 (by decide) (by decide) (by decide) (by decide) (by decide)⟩

/-- C4: when `process_attendance` creates a new record for today (no existing
record, cooldown passed), the record has `time_in = now`, confidence equal to
the recognizer score, and status `LATE` exactly when the time of day is
strictly after the configured work start, else `PRESENT`; the emitted outcome
is `time_in`.  In particular, with work start 08:00 (28800 s), a time-in at
08:15 (29700 s) is `LATE` and one at 07:59 (28740 s) is `PRESENT`. -/
theorem process_attendance_creation_status {C : Type} (cd ws : ℤ) (s : DB C)
    (pid : ℕ) (conf : C) (img : Option String) (now : ℤ)
    (hp : pid ∈ s.personnel)
    (hnorecent : ∀ t ∈ actionInstants s pid, t < now - cd)
    (hnotoday : ∀ r ∈ s.records, ¬(r.personnel_id = pid ∧ r.date = dateOf now)) :
    (∃ rec : Attendance C,
      (process_attendance cd ws s pid conf img now).1 = .time_in now rec.status ∧
      (process_attendance cd ws s pid conf img now).2.records
        = s.records ++ [rec] ∧
      rec.personnel_id = pid ∧
      rec.date = dateOf now ∧
      rec.time_in = some now ∧
      rec.time_out = none ∧
      rec.confidence_score = some conf ∧
      rec.status = (if ws < timeOfDay now then AttendanceStatus.LATE
                    else AttendanceStatus.PRESENT)) ∧
    (process_attendance 60 28800 wEmpty 7 5 none 29700).1
      = .time_in 29700 AttendanceStatus.LATE ∧
    (process_attendance 60 28800 wEmpty 7 5 none 28740).1
      = .time_in 28740 AttendanceStatus.PRESENT := by
  refine ⟨?_, by decide, by decide⟩
  have h1 := process_attendance_creates cd ws s pid conf img now hp
    (find?_recentPred_eq_none_of_actions hnorecent)
    (find?_todayPred_eq_none hnotoday)
  exact ⟨newAttendanceRecord ws s pid conf img now,
    by rw [h1], by rw [h1], rfl, rfl, rfl, rfl, rfl, rfl⟩

/-- Witness for C4: person 7 in the empty state triggers at 08:15 on day 0. -/
theorem process_attendance_creation_status_witness :
    (∀ r ∈ wEmpty.records, ¬(r.personnel_id = 7 ∧ r.date = dateOf 29700)) ∧
    ((∃ rec : Attendance ℕ,
      (process_attendance 60 28800 wEmpty 7 5 none 29700).1
        = .time_in 29700 rec.status ∧
      (process_attendance 60 28800 wEmpty 7 5 none 29700).2.records
        = wEmpty.records ++ [rec] ∧
      rec.personnel_id = 7 ∧
      rec.date = dateOf 29700 ∧
      rec.time_in = some 29700 ∧
      rec.time_out = none ∧
      rec.confidence_score = some 5 ∧
      rec.status = (if (28800 : ℤ) < timeOfDay 29700 then AttendanceStatus.LATE
                    else AttendanceStatus.PRESENT)) ∧
     (process_attendance 60 28800 wEmpty 7 5 none 29700).1
       = .time_in 29700 AttendanceStatus.LATE ∧
     (process_attendance 60 28800 wEmpty 7 5 none 28740).1
       = .time_in 28740 AttendanceStatus.PRESENT) :=
  ⟨by decide, process_attendance_creation_status 60 28800 wEmpty 7 5 none 29700
    (by decide) (by decide) (by decide)⟩

/-- Helper for C3: whenever the person's most recent action instant `M`
satisfies `now - M < cd`, the cooldown gate fires: the outcome is `cooldown`
whose remaining seconds are `cd - (now - l)` for a recent action instant `l`
of that person, and the state is untouched. -/
theorem cooldown_gate_fires {C : Type} (cd ws : ℤ) (s : DB C)
    (pid : ℕ) (conf : C) (img : Option String) (now M : ℤ)
    (hp : pid ∈ s.personnel)
    (hM : M ∈ actionInstants s pid)
    (_hmax : ∀ t ∈ actionInstants s pid, t ≤ M)
    (hlt : now - M < cd) :
    (∃ rem tin tout,
      (process_attendance cd ws s pid conf img now).1 = .cooldown rem tin tout ∧
      ∃ l ∈ actionInstants s pid, now - cd ≤ l ∧ rem = cd - (now - l)) ∧
    (process_attendance cd ws s pid conf img now).2 = s := by
  obtain ⟨r, hr, hpid, hM'⟩ := mem_actionInstants.mp hM
  have hsome : (s.records.find? (recentPred pid (now - cd))).isSome = true := by
    rw [List.find?_isSome]
    refine ⟨r, hr, ?_⟩
    unfold recentPred
    rw [Bool.and_eq_true, beq_iff_eq, Bool.or_eq_true]
    refine ⟨hpid, ?_⟩
    rcases hM' with h | h
    · exact Or.inl (colGe_eq_true_iff.mpr ⟨M, h, by omega⟩)
    · exact Or.inr (colGe_eq_true_iff.mpr ⟨M, h, by omega⟩)
  rcases hfound : s.records.find? (recentPred pid (now - cd)) with _ | r₀
  · rw [hfound] at hsome
    cases hsome
  · have hpred := List.find?_some hfound
    have hmem := List.mem_of_find?_eq_some hfound
    unfold recentPred at hpred
    rw [Bool.and_eq_true, beq_iff_eq, Bool.or_eq_true] at hpred
    obtain ⟨hpid₀, hor⟩ := hpred
    by_cases hc : colGe r₀.time_out (now - cd) = true
    · obtain ⟨l, hl, hbl⟩ := colGe_eq_true_iff.mp hc
      have heq : process_attendance cd ws s pid conf img now
          = (.cooldown (cd - (now - l)) r₀.time_in r₀.time_out, s) := by
        unfold process_attendance
        rw [if_pos hp]
        dsimp only
        rw [hfound]
        dsimp only
        rw [if_pos hc, hl]
      refine ⟨⟨_, _, _, by rw [heq], l,
        mem_actionInstants.mpr ⟨r₀, hmem, hpid₀, Or.inr hl⟩, hbl, rfl⟩, by rw [heq]⟩
    · have hcin : colGe r₀.time_in (now - cd) = true := by
        rcases hor with h | h
        · exact h
        · exact absurd h hc
      obtain ⟨l, hl, hbl⟩ := colGe_eq_true_iff.mp hcin
      have heq : process_attendance cd ws s pid conf img now
          = (.cooldown (cd - (now - l)) r₀.time_in r₀.time_out, s) := by
        unfold process_attendance
        rw [if_pos hp]
        dsimp only
        rw [hfound]
        dsimp only
        rw [if_neg hc, hl]
      refine ⟨⟨_, _, _, by rw [heq], l,
        mem_actionInstants.mpr ⟨r₀, hmem, hpid₀, Or.inl hl⟩, hbl, rfl⟩, by rw [heq]⟩

/-- C3 (amended): the cooldown gate is global, cross-date and evaluated
first: if the most recent of the person's time-in/time-out instants `M`
across all records satisfies `now - M < cd`, the outcome is `cooldown` and no
record is created or modified; the remaining seconds it carries are
`cd - (now - l)` for a recent (within-window) action instant `l` of that
person — the one of the first matching row of the unordered query, which
need not be the most recent action (see the counterexample below).  With a
single recent action both coincide: concretely (cooldown 60 s, one record
with time-in at 100000) a request 30 s later reports `cooldown` with exactly
30 s remaining and an unchanged state, while a request 61 s later proceeds to
the normal state-machine evaluation (`already_recorded`). -/
theorem cooldown_gate_global_cross_date {C : Type} (cd ws : ℤ) (s : DB C)
    (pid : ℕ) (conf : C) (img : Option String) (now M : ℤ)
    (hp : pid ∈ s.personnel)
    (hM : M ∈ actionInstants s pid)
    (hmax : ∀ t ∈ actionInstants s pid, t ≤ M)
    (hlt : now - M < cd) :
    ((∃ rem tin tout,
      (process_attendance cd ws s pid conf img now).1 = .cooldown rem tin tout ∧
      ∃ l ∈ actionInstants s pid, now - cd ≤ l ∧ rem = cd - (now - l)) ∧
     (process_attendance cd ws s pid conf img now).2 = s) ∧
    (process_attendance 60 28800 wSingle 7 5 none 100030).1
      = .cooldown 30 (some 100000) none ∧
    (process_attendance 60 28800 wSingle 7 5 none 100030).2 = wSingle ∧
    (process_attendance 60 28800 wSingle 7 5 none 100061).1
      = .already_recorded (some 100000) none :=
  ⟨cooldown_gate_fires cd ws s pid conf img now M hp hM hmax hlt,
   by decide, by decide, by decide⟩

/-- Witness for C3: person 7 of `wDB`, whose most recent action is the
time-out at 32000, triggers again at 32030. -/
theorem cooldown_gate_global_cross_date_witness :
    ((32000 : ℤ) ∈ actionInstants wDB 7 ∧
     (∀ t ∈ actionInstants wDB 7, t ≤ 32000) ∧
     (32030 : ℤ) - 32000 < 60) ∧
    (((∃ rem tin tout,
      (process_attendance 60 28800 wDB 7 5 none 32030).1
        = .cooldown rem tin tout ∧
      ∃ l ∈ actionInstants wDB 7, 32030 - 60 ≤ l ∧ rem = 60 - (32030 - l)) ∧
     (process_attendance 60 28800 wDB 7 5 none 32030).2 = wDB) ∧
    (process_attendance 60 28800 wSingle 7 5 none 100030).1
      = .cooldown 30 (some 100000) none ∧
    (process_attendance 60 28800 wSingle 7 5 none 100030).2 = wSingle ∧
    (process_attendance 60 28800 wSingle 7 5 none 100061).1
      = .already_recorded (some 100000) none) :=
  ⟨⟨by decide, by decide, by decide⟩,
   cooldown_gate_global_cross_date 60 28800 wDB 7 5 none 32030 32000
     (by decide) (by decide) (by decide) (by decide)⟩

/-- C7 (amended): invariant I2 is preserved by the automatic
`process_attendance` path — it never sets `time_out` and only ever appends a
record whose `time_out` is null, so in its post-state every record with both
times set still has `time_out ≥ time_in`. -/
theorem process_attendance_preserves_times_ordered {C : Type} (cd ws : ℤ)
    (s : DB C) (pid : ℕ) (conf : C) (img : Option String) (now : ℤ)
    (h : TimesOrdered s) :
    TimesOrdered (process_attendance cd ws s pid conf img now).2 := by
  rcases process_attendance_state_cases cd ws s pid conf img now with
    heq | ⟨-, rec, -, -, hto, hrecs, -⟩
  · rw [heq]; exact h
  · intro r hr ti tou hti htou
    rw [hrecs] at hr
    rcases List.mem_append.mp hr with hr | hr
    · exact h r hr ti tou hti htou
    · rcases List.mem_singleton.mp hr with rfl
      rw [hto] at htou
      cases htou

/-- Witness for the amended C7: the ordered state `wDB` stays ordered after a
record-creating `process_attendance` call. -/
theorem process_attendance_preserves_times_ordered_witness :
    TimesOrdered wDB ∧
    TimesOrdered (process_attendance 60 28800 wDB 7 5 none 200000).2 := by
  have h : TimesOrdered wDB := by
    intro r hr ti tou hti htou
    simp only [wDB, wRec] at hr
    rcases List.mem_singleton.mp hr with rfl
    simp at hti htou
    omega
  exact ⟨h, process_attendance_preserves_times_ordered 60 28800 wDB 7 5
    none 200000 h⟩

/-- Counterexample to C7 as stated: the manual-entry route validates nothing
about the ordering of its two form times, so from a state satisfying I2 it
creates a record with `time_in` 17:00 (61200 s) and `time_out` 08:00
(28800 s) of the same day — `time_out < time_in`. -/
theorem manual_breaks_times_ordered :
    TimesOrdered wEmpty ∧
    (manual wEmpty 7 0 (some 61200) (some 28800)
      AttendanceStatus.PRESENT true 1).1 = .created ∧
    ∃ r ∈ (manual wEmpty 7 0 (some 61200) (some 28800)
      AttendanceStatus.PRESENT true 1).2.records,
      ∃ ti tou : ℤ, r.time_in = some ti ∧ r.time_out = some tou ∧ tou < ti := by
  refine ⟨?_, rfl, ?_⟩
  · intro r hr ti tou hti htou
    simp [wEmpty] at hr
  · exact ⟨⟨0, 7, 0, some 61200, some 28800, .PRESENT, none, some false,
      some true, some 1, none, none⟩, by decide, 61200, 28800, rfl, rfl,
      by decide⟩

theorem approve_time_in_conflict {C : Type} (s : DB C) (rid : ℕ) (uid : ℕ)
    (now : ℤ) (preq : PendingAttendance) (ex : Attendance C)
    (hpend : s.pending.find? (fun p => p.id == rid) = some preq)
    (hex : s.records.find? (todayPred preq.personnel_id preq.date) = some ex)
    (hty : preq.attendance_type = .TIME_IN) (hin : ex.time_in.isSome = true) :
    approve s rid true uid now = (.timeInAlreadyRecorded, s) := by
  unfold approve
  rw [if_pos rfl, hpend]
  dsimp only
  rw [hex]
  dsimp only
  rw [hty]
  dsimp only
  rw [if_pos hin]

theorem approve_time_out_conflict {C : Type} (s : DB C) (rid : ℕ) (uid : ℕ)
    (now : ℤ) (preq : PendingAttendance) (ex : Attendance C)
    (hpend : s.pending.find? (fun p => p.id == rid) = some preq)
    (hex : s.records.find? (todayPred preq.personnel_id preq.date) = some ex)
    (hty : preq.attendance_type = .TIME_OUT) (hout : ex.time_out.isSome = true) :
    approve s rid true uid now = (.timeOutAlreadyRecorded, s) := by
  unfold approve
  rw [if_pos rfl, hpend]
  dsimp only
  rw [hex]
  dsimp only
  rw [hty]
  dsimp only
  rw [if_pos hout]

theorem approve_time_out_merges {C : Type} (s : DB C) (rid : ℕ) (uid : ℕ)
    (now : ℤ) (preq : PendingAttendance) (ex : Attendance C)
    (hpend : s.pending.find? (fun p => p.id == rid) = some preq)
    (hex : s.records.find? (todayPred preq.personnel_id preq.date) = some ex)
    (hty : preq.attendance_type = .TIME_OUT) (hout : ex.time_out = none) :
    (approve s rid true uid now).1 = .approved ∧
    (∃ l₁ l₂, s.records = l₁ ++ ex :: l₂ ∧
      (approve s rid true uid now).2.records
        = l₁ ++ ({ ex with
                   time_out := some now
                   time_out_image := some preq.image_path
                   is_approved := some true
                   approved_by := some uid } : Attendance C) :: l₂) ∧
    (approve s rid true uid now).2.pending
      = s.pending.eraseP (fun p => p.id == rid) := by
  have heq : approve s rid true uid now =
      (.approved,
        { s with
          records := updateFirst (todayPred preq.personnel_id preq.date)
            (fun r => { r with
                        time_out := some now
                        time_out_image := some preq.image_path
                        is_approved := some true
                        approved_by := some uid }) s.records
          pending := s.pending.eraseP (fun p => p.id == rid) }) := by
    unfold approve
    rw [if_pos rfl, hpend]
    dsimp only
    rw [hex]
    dsimp only
    rw [hty]
    dsimp only
    rw [if_neg (by simp [hout])]
  obtain ⟨l₁, l₂, hsplit, hfalse⟩ := find?_decomp hex
  refine ⟨by rw [heq], ⟨l₁, l₂, hsplit, ?_⟩, by rw [heq]⟩
  rw [heq]
  show updateFirst _ _ s.records = _
  rw [hsplit, updateFirst_append_cons hfalse (List.find?_some hex)]

theorem approve_time_in_merges {C : Type} (s : DB C) (rid : ℕ) (uid : ℕ)
    (now : ℤ) (preq : PendingAttendance) (ex : Attendance C)
    (hpend : s.pending.find? (fun p => p.id == rid) = some preq)
    (hex : s.records.find? (todayPred preq.personnel_id preq.date) = some ex)
    (hty : preq.attendance_type = .TIME_IN) (hin : ex.time_in = none) :
    (approve s rid true uid now).1 = .approved ∧
    (∃ l₁ l₂, s.records = l₁ ++ ex :: l₂ ∧
      (approve s rid true uid now).2.records
        = l₁ ++ ({ ex with
                   time_in := some now
                   time_in_image := some preq.image_path
                   is_approved := some true
                   approved_by := some uid } : Attendance C) :: l₂) ∧
    (approve s rid true uid now).2.pending
      = s.pending.eraseP (fun p => p.id == rid) := by
  have heq : approve s rid true uid now =
      (.approved,
        { s with
          records := updateFirst (todayPred preq.personnel_id preq.date)
            (fun r => { r with
                        time_in := some now
                        time_in_image := some preq.image_path
                        is_approved := some true
                        approved_by := some uid }) s.records
          pending := s.pending.eraseP (fun p => p.id == rid) }) := by
    unfold approve
    rw [if_pos rfl, hpend]
    dsimp only
    rw [hex]
    dsimp only
    rw [hty]
    dsimp only
    rw [if_neg (by simp [hin])]
  obtain ⟨l₁, l₂, hsplit, hfalse⟩ := find?_decomp hex
  refine ⟨by rw [heq], ⟨l₁, l₂, hsplit, ?_⟩, by rw [heq]⟩
  rw [heq]
  show updateFirst _ _ s.records = _
  rw [hsplit, updateFirst_append_cons hfalse (List.find?_some hex)]

theorem reject_touches_no_record {C : Type} (s : DB C) (rid : ℕ) (adm : Bool) :
    (reject s rid adm).2.records = s.records ∧
    ((s.pending.find? (fun p => p.id == rid)).isSome = true → adm = true →
      (reject s rid adm).1 = .rejected ∧
      (reject s rid adm).2.pending
        = s.pending.eraseP (fun p => p.id == rid)) := by
  unfold reject
  by_cases hadm : adm = true
  · rw [if_pos hadm]
    split
    · rename_i hp
      exact ⟨rfl, by intro hs _; rw [hp] at hs; cases hs⟩
    · exact ⟨rfl, fun _ _ => ⟨rfl, rfl⟩⟩
  · rw [if_neg hadm]
    exact ⟨rfl, fun _ h => absurd h hadm⟩

/-- C8: approving a pending request merges it into the canonical record under
the don't-overwrite rule — approving a TIME_IN when `time_in` is already set
(or a TIME_OUT when `time_out` is already set) fails with an error and leaves
the state unchanged, while approving into a free slot fills exactly that slot
of the existing record and consumes the request — and rejecting a request
never creates or modifies any attendance record, only discards the request. -/
theorem pending_approval_merge_rules {C : Type} (s : DB C) (rid : ℕ)
    (uid : ℕ) (now : ℤ) (preq : PendingAttendance) (ex : Attendance C)
    (hpend : s.pending.find? (fun p => p.id == rid) = some preq)
    (hex : s.records.find? (todayPred preq.personnel_id preq.date) = some ex) :
    (preq.attendance_type = .TIME_IN → ex.time_in.isSome = true →
      approve s rid true uid now = (.timeInAlreadyRecorded, s)) ∧
    (preq.attendance_type = .TIME_OUT → ex.time_out.isSome = true →
      approve s rid true uid now = (.timeOutAlreadyRecorded, s)) ∧
    (preq.attendance_type = .TIME_IN → ex.time_in = none →
      (approve s rid true uid now).1 = .approved ∧
      (∃ l₁ l₂, s.records = l₁ ++ ex :: l₂ ∧
        (approve s rid true uid now).2.records
          = l₁ ++ ({ ex with
                     time_in := some now
                     time_in_image := some preq.image_path
                     is_approved := some true
                     approved_by := some uid } : Attendance C) :: l₂) ∧
      (approve s rid true uid now).2.pending
        = s.pending.eraseP (fun p => p.id == rid)) ∧
    (preq.attendance_type = .TIME_OUT → ex.time_out = none →
      (approve s rid true uid now).1 = .approved ∧
      (∃ l₁ l₂, s.records = l₁ ++ ex :: l₂ ∧
        (approve s rid true uid now).2.records
          = l₁ ++ ({ ex with
                     time_out := some now
                     time_out_image := some preq.image_path
                     is_approved := some true
                     approved_by := some uid } : Attendance C) :: l₂) ∧
      (approve s rid true uid now).2.pending
        = s.pending.eraseP (fun p => p.id == rid)) ∧
    (∀ (rid' : ℕ) (adm : Bool),
      (reject s rid' adm).2.records = s.records ∧
      ((s.pending.find? (fun p => p.id == rid')).isSome = true → adm = true →
        (reject s rid' adm).1 = .rejected ∧
        (reject s rid' adm).2.pending
          = s.pending.eraseP (fun p => p.id == rid'))) :=
  ⟨fun hty hin => approve_time_in_conflict s rid uid now preq ex hpend hex hty hin,
   fun hty hout => approve_time_out_conflict s rid uid now preq ex hpend hex hty hout,
   fun hty hin => approve_time_in_merges s rid uid now preq ex hpend hex hty hin,
   fun hty hout => approve_time_out_merges s rid uid now preq ex hpend hex hty hout,
   fun rid' adm => reject_touches_no_record s rid' adm⟩

/-- Witness for C8: the state `wOpenDB` holds an open record of person 7 and
a pending time-out request for the same (person, date). -/
theorem pending_approval_merge_rules_witness :
    (wOpenDB.pending.find? (fun p => p.id == 1) = some wPending ∧
     wOpenDB.records.find? (todayPred wPending.personnel_id wPending.date)
       = some wOpenRec) ∧
    ((wPending.attendance_type = .TIME_IN → wOpenRec.time_in.isSome = true →
      approve wOpenDB 1 true 9 100200 = (.timeInAlreadyRecorded, wOpenDB)) ∧
    (wPending.attendance_type = .TIME_OUT → wOpenRec.time_out.isSome = true →
      approve wOpenDB 1 true 9 100200 = (.timeOutAlreadyRecorded, wOpenDB)) ∧
    (wPending.attendance_type = .TIME_IN → wOpenRec.time_in = none →
      (approve wOpenDB 1 true 9 100200).1 = .approved ∧
      (∃ l₁ l₂, wOpenDB.records = l₁ ++ wOpenRec :: l₂ ∧
        (approve wOpenDB 1 true 9 100200).2.records
          = l₁ ++ ({ wOpenRec with
                     time_in := some 100200
                     time_in_image := some wPending.image_path
                     is_approved := some true
                     approved_by := some 9 } : Attendance ℕ) :: l₂) ∧
      (approve wOpenDB 1 true 9 100200).2.pending
        = wOpenDB.pending.eraseP (fun p => p.id == 1)) ∧
    (wPending.attendance_type = .TIME_OUT → wOpenRec.time_out = none →
      (approve wOpenDB 1 true 9 100200).1 = .approved ∧
      (∃ l₁ l₂, wOpenDB.records = l₁ ++ wOpenRec :: l₂ ∧
        (approve wOpenDB 1 true 9 100200).2.records
          = l₁ ++ ({ wOpenRec with
                     time_out := some 100200
                     time_out_image := some wPending.image_path
                     is_approved := some true
                     approved_by := some 9 } : Attendance ℕ) :: l₂) ∧
      (approve wOpenDB 1 true 9 100200).2.pending
        = wOpenDB.pending.eraseP (fun p => p.id == 1)) ∧
    (∀ (rid' : ℕ) (adm : Bool),
      (reject wOpenDB rid' adm).2.records = wOpenDB.records ∧
      ((wOpenDB.pending.find? (fun p => p.id == rid')).isSome = true →
        adm = true →
        (reject wOpenDB rid' adm).1 = .rejected ∧
        (reject wOpenDB rid' adm).2.pending
          = wOpenDB.pending.eraseP (fun p => p.id == rid')))) :=
  ⟨⟨by decide, by decide⟩,
   pending_approval_merge_rules wOpenDB 1 9 100200 wPending wOpenRec
     (by decide) (by decide)⟩

theorem dotp_comm (a b : List ℝ) : dotp a b = dotp b a := by
  induction a generalizing b with
  | nil => cases b <;> simp [dotp]
  | cons x xs ih =>
    cases b with
    | nil => simp [dotp]
    | cons y ys =>
      unfold dotp
      simp only [List.zipWith_cons_cons, List.sum_cons]
      rw [mul_comm]
      exact congrArg (y * x + ·) (ih ys)

/-- C5: the similarity scorer is a total function: shape mismatch gives
`(0, false)`; a zero-norm input gives `(0, false)`; otherwise the similarity
is the cosine `dot / (‖a‖ ‖b‖)` and the match bit is set iff the similarity
reaches the threshold. -/
theorem compare_embeddings_total_spec (a b : List ℝ) (t : ℝ) :
    (a.length ≠ b.length → compare_embeddings a b t = (0, false)) ∧
    (a.length = b.length → (l2norm a = 0 ∨ l2norm b = 0) →
      compare_embeddings a b t = (0, false)) ∧
    (a.length = b.length → l2norm a ≠ 0 → l2norm b ≠ 0 →
      (compare_embeddings a b t).1 = dotp a b / (l2norm a * l2norm b) ∧
      ((compare_embeddings a b t).2 = true ↔ t ≤ (compare_embeddings a b t).1)) := by
  refine ⟨?_, ?_, ?_⟩
  · intro h
    unfold compare_embeddings
    rw [if_pos h]
  · intro h hz
    unfold compare_embeddings
    rw [if_neg (show ¬a.length ≠ b.length from fun hn => hn h)]
    dsimp only
    rw [if_pos hz]
  · intro h hna hnb
    unfold compare_embeddings
    rw [if_neg (show ¬a.length ≠ b.length from fun hn => hn h)]
    dsimp only
    rw [if_neg (not_or.mpr ⟨hna, hnb⟩)]
    exact ⟨rfl, by rw [decide_eq_true_iff]⟩

/-- Witness for C5 on the shape-mismatch branch: a 2-vector against a
1-vector scores 0 with no match. -/
theorem compare_embeddings_total_spec_witness :
    ([1, 0] : List ℝ).length ≠ ([1] : List ℝ).length ∧
    compare_embeddings [1, 0] [1] (3 / 4) = (0, false) :=
  ⟨by decide, (compare_embeddings_total_spec [1, 0] [1] (3 / 4)).1 (by decide)⟩

/-- C10 (implicit): the similarity scorer is symmetric in its two embedding
arguments, in every branch. -/
theorem compare_embeddings_symm (a b : List ℝ) (t : ℝ) :
    compare_embeddings a b t = compare_embeddings b a t := by
  unfold compare_embeddings
  by_cases h : a.length = b.length
  · rw [if_neg (show ¬a.length ≠ b.length from fun hn => hn h),
      if_neg (show ¬b.length ≠ a.length from fun hn => hn h.symm)]
    by_cases hz : l2norm a = 0 ∨ l2norm b = 0
    · rw [if_pos hz, if_pos (Or.symm hz)]
    · rw [if_neg hz, if_neg (fun hc => hz (Or.symm hc))]
      dsimp only
      rw [dotp_comm a b, mul_comm (l2norm a) (l2norm b)]
  · rw [if_pos h, if_pos (show b.length ≠ a.length from fun hn => h hn.symm)]

theorem compare_match_le (a b : List ℝ) (t : ℝ)
    (h : (compare_embeddings a b t).2 = true) :
    t ≤ (compare_embeddings a b t).1 := by
  unfold compare_embeddings at h ⊢
  by_cases hl : a.length ≠ b.length
  · rw [if_pos hl] at h
    simp at h
  · rw [if_neg hl] at h ⊢
    dsimp only at h ⊢
    by_cases hz : l2norm a = 0 ∨ l2norm b = 0
    · rw [if_pos hz] at h
      simp at h
    · rw [if_neg hz] at h ⊢
      exact of_decide_eq_true h

theorem recognizeScan_no_improve (emb : List ℝ) (t : ℝ)
    (pairs : List (ℕ × List ℝ)) :
    ∀ st : Option ℕ × ℝ,
    (∀ q ∈ pairs, pairMatch emb t q = true → pairSim emb t q ≤ st.2) →
    recognizeScan emb t st pairs = st := by
  induction pairs with
  | nil => intro st _; rfl
  | cons q rest ih =>
    intro st h
    have hstep : recognizeStep emb t st q = st := by
      unfold recognizeStep
      rw [if_neg]
      rintro ⟨hm, hlt⟩
      exact absurd hlt (not_lt.mpr (h q (by simp) hm))
    unfold recognizeScan at *
    rw [List.foldl_cons, hstep]
    exact ih st (fun p hp hm => h p (List.mem_cons_of_mem _ hp) hm)

theorem recognizeScan_finds (emb : List ℝ) (t : ℝ)
    (pairs : List (ℕ × List ℝ)) :
    ∀ st : Option ℕ × ℝ,
    (∃ q ∈ pairs, pairMatch emb t q = true ∧ st.2 < pairSim emb t q) →
    ∃ l₁ q l₂, pairs = l₁ ++ q :: l₂ ∧ pairMatch emb t q = true ∧
      st.2 < pairSim emb t q ∧
      recognizeScan emb t st pairs = (some q.1, pairSim emb t q) ∧
      (∀ p ∈ l₁, pairMatch emb t p = true →
        pairSim emb t p < pairSim emb t q) ∧
      (∀ p ∈ l₂, pairMatch emb t p = true →
        pairSim emb t p ≤ pairSim emb t q) := by
  induction pairs with
  | nil =>
    rintro st ⟨q, hq, -⟩
    cases hq
  | cons p rest ih =>
    intro st h
    by_cases hp : pairMatch emb t p = true ∧ st.2 < pairSim emb t p
    · have hstep : recognizeStep emb t st p = (some p.1, pairSim emb t p) := by
        unfold recognizeStep
        dsimp only
        exact if_pos hp
      by_cases hrest : ∃ q ∈ rest, pairMatch emb t q = true ∧
          pairSim emb t p < pairSim emb t q
      · obtain ⟨l₁, q, l₂, hsplit, hqm, hqlt, hscan, h₁, h₂⟩ :=
          ih (some p.1, pairSim emb t p) hrest
        refine ⟨p :: l₁, q, l₂, by simp [hsplit], hqm, lt_trans hp.2 hqlt, ?_, ?_, h₂⟩
        · unfold recognizeScan at hscan ⊢
          rw [List.foldl_cons, hstep]
          exact hscan
        · intro x hx hxm
          rcases List.mem_cons.mp hx with rfl | hx
          · exact hqlt
          · exact h₁ x hx hxm
      · push_neg at hrest
        have h₂ : ∀ q ∈ rest, pairMatch emb t q = true →
            pairSim emb t q ≤ pairSim emb t p := hrest
        refine ⟨[], p, rest, rfl, hp.1, hp.2, ?_, by simp, h₂⟩
        unfold recognizeScan
        rw [List.foldl_cons, hstep]
        exact recognizeScan_no_improve emb t rest (some p.1, pairSim emb t p) h₂
    · have hstep : recognizeStep emb t st p = st := by
        unfold recognizeStep
        dsimp only
        exact if_neg hp
      have h' : ∃ q ∈ rest, pairMatch emb t q = true ∧ st.2 < pairSim emb t q := by
        obtain ⟨q, hq, hqm, hqlt⟩ := h
        rcases List.mem_cons.mp hq with rfl | hq
        · exact absurd ⟨hqm, hqlt⟩ hp
        · exact ⟨q, hq, hqm, hqlt⟩
      obtain ⟨l₁, q, l₂, hsplit, hqm, hqlt, hscan, h₁, h₂⟩ := ih st h'
      refine ⟨p :: l₁, q, l₂, by simp [hsplit], hqm, hqlt, ?_, ?_, h₂⟩
      · unfold recognizeScan at hscan ⊢
        rw [List.foldl_cons, hstep]
        exact hscan
      · intro x hx hxm
        rcases List.mem_cons.mp hx with rfl | hx
        · by_cases hxm' : pairMatch emb t x = true
          · have hle : pairSim emb t x ≤ st.2 := by
              by_contra hc
              exact hp ⟨hxm', lt_of_not_le hc⟩
            exact lt_of_le_of_lt hle hqlt
          · exact absurd hxm hxm'
        · exact h₁ x hx hxm

theorem inner_foldl_eq_scan (emb : List ℝ) (t : ℝ) (pidv : ℕ) :
    ∀ (embs : List (Option (List ℝ))) (st : Option ℕ × ℝ),
    embs.foldl (fun st' dbEmb => match dbEmb with
      | none => st'
      | some e => recognizeStep emb t st' (pidv, e)) st
    = recognizeScan emb t st
        (embs.filterMap (fun o => o.map (fun e => (pidv, e)))) := by
  intro embs
  induction embs with
  | nil => intro st; rfl
  | cons o rest ih =>
    intro st
    cases o with
    | none =>
      rw [List.foldl_cons]
      rw [ih st]
      rfl
    | some e =>
      rw [List.foldl_cons]
      rw [ih (recognizeStep emb t st (pidv, e))]
      rfl

theorem recognize_face_eq_scan (emb : List ℝ) (t : ℝ) :
    ∀ (db : List (ℕ × PersonEntry)) (st : Option ℕ × ℝ),
    db.foldl (fun st pd =>
      if pd.2.embeddings.isEmpty then st
      else pd.2.embeddings.foldl (fun st' dbEmb =>
        match dbEmb with
        | none => st'
        | some e => recognizeStep emb t st' (pd.1, e)) st) st
    = recognizeScan emb t st (templatePairs db) := by
  intro db
  induction db with
  | nil => intro st; rfl
  | cons pd rest ih =>
    intro st
    rw [List.foldl_cons, ih]
    have hpairs : templatePairs (pd :: rest)
        = pd.2.embeddings.filterMap (fun o => o.map (fun e => (pd.1, e)))
          ++ templatePairs rest := by
      simp [templatePairs]
    rw [hpairs]
    unfold recognizeScan
    rw [List.foldl_append]
    congr 1
    by_cases hemp : pd.2.embeddings.isEmpty = true
    · rw [if_pos hemp]
      rw [List.isEmpty_iff.mp hemp]
      rfl
    · rw [if_neg hemp]
      exact inner_foldl_eq_scan emb t pd.1 pd.2.embeddings st

theorem recognize_face_as_scan (emb : List ℝ) (db : List (ℕ × PersonEntry))
    (t : ℝ) (hdb : db ≠ []) :
    recognize_face (some emb) db t
      = recognizeScan emb t (none, 0) (templatePairs db) := by
  unfold recognize_face
  dsimp only
  rw [if_neg (show ¬db.isEmpty = true by simpa [List.isEmpty_iff] using hdb)]
  exact recognize_face_eq_scan emb t db (none, 0)

/-- C6: on a non-empty index, the recognizer returns the person whose
template attains the single highest similarity that clears the threshold,
with the "first highest wins" tie-break under strict `>` (an equal later
score never displaces the earlier-seen candidate); when no template clears
the threshold it returns no person with best similarity 0. -/
theorem recognize_face_first_highest (emb : List ℝ)
    (db : List (ℕ × PersonEntry)) (t : ℝ) (ht : 0 < t) (hdb : db ≠ []) :
    ((∀ q ∈ templatePairs db, pairMatch emb t q = false) →
      recognize_face (some emb) db t = (none, 0)) ∧
    (∀ q₀ ∈ templatePairs db, pairMatch emb t q₀ = true →
      ∃ l₁ q l₂, templatePairs db = l₁ ++ q :: l₂ ∧
        pairMatch emb t q = true ∧
        recognize_face (some emb) db t = (some q.1, pairSim emb t q) ∧
        (∀ p ∈ templatePairs db, pairMatch emb t p = true →
          pairSim emb t p ≤ pairSim emb t q) ∧
        (∀ p ∈ l₁, pairMatch emb t p = true →
          pairSim emb t p < pairSim emb t q)) := by
  constructor
  · intro hnone
    rw [recognize_face_as_scan emb db t hdb]
    exact recognizeScan_no_improve emb t (templatePairs db) (none, 0)
      (fun q hq hm => by rw [hnone q hq] at hm; cases hm)
  · intro q₀ hq₀ hm₀
    have hpos : ((none : Option ℕ), (0 : ℝ)).2 < pairSim emb t q₀ :=
      lt_of_lt_of_le ht (compare_match_le emb q₀.2 t hm₀)
    obtain ⟨l₁, q, l₂, hsplit, hqm, hqlt, hscan, h₁, h₂⟩ :=
      recognizeScan_finds emb t (templatePairs db) (none, 0) ⟨q₀, hq₀, hm₀, hpos⟩
    refine ⟨l₁, q, l₂, hsplit, hqm, ?_, ?_, h₁⟩
    · rw [recognize_face_as_scan emb db t hdb]
      exact hscan
    · intro p hp hpm
      rw [hsplit] at hp
      rcases List.mem_append.mp hp with hp | hp
      · exact le_of_lt (h₁ p hp hpm)
      · rcases List.mem_cons.mp hp with rfl | hp
        · exact le_refl _
        · exact h₂ p hp hpm

/-- Witness for C6 on a one-template database at threshold 3/4. -/
theorem recognize_face_first_highest_witness :
    ((0 : ℝ) < 3 / 4 ∧ wFaceDB ≠ []) ∧
    (((∀ q ∈ templatePairs wFaceDB, pairMatch [1, 0] (3 / 4) q = false) →
      recognize_face (some [1, 0]) wFaceDB (3 / 4) = (none, 0)) ∧
    (∀ q₀ ∈ templatePairs wFaceDB, pairMatch [1, 0] (3 / 4) q₀ = true →
      ∃ l₁ q l₂, templatePairs wFaceDB = l₁ ++ q :: l₂ ∧
        pairMatch [1, 0] (3 / 4) q = true ∧
        recognize_face (some [1, 0]) wFaceDB (3 / 4)
          = (some q.1, pairSim [1, 0] (3 / 4) q) ∧
        (∀ p ∈ templatePairs wFaceDB, pairMatch [1, 0] (3 / 4) p = true →
          pairSim [1, 0] (3 / 4) p ≤ pairSim [1, 0] (3 / 4) q) ∧
        (∀ p ∈ l₁, pairMatch [1, 0] (3 / 4) p = true →
          pairSim [1, 0] (3 / 4) p < pairSim [1, 0] (3 / 4) q))) :=
  ⟨⟨by norm_num, by simp [wFaceDB]⟩,
   recognize_face_first_highest [1, 0] wFaceDB (3 / 4) (by norm_num)
     (by simp [wFaceDB])⟩

theorem acceptedImages_enumFrom_length {E : Type} (imgs : List (Option E)) :
    ∀ n : ℕ,
    ((List.enumFrom n imgs).filterMap
      (fun ie => ie.2.map (fun e => (ie.1, e)))).length
    = imgs.countP (fun o => o.isSome) := by
  induction imgs with
  | nil => intro n; rfl
  | cons o rest ih =>
    intro n
    cases o with
    | none => simp [List.enumFrom, List.filterMap_cons, List.countP_cons, ih]
    | some e => simp [List.enumFrom, List.filterMap_cons, List.countP_cons, ih]

theorem acceptedImages_enumFrom_head {E : Type} (imgs : List (Option E)) :
    ∀ n : ℕ,
    (((List.enumFrom n imgs).filterMap
      (fun ie => ie.2.map (fun e => (ie.1, e)))).map Prod.fst).head?
    = imgs.findIdx? (fun o => o.isSome) n := by
  induction imgs with
  | nil => intro n; rfl
  | cons o rest ih =>
    intro n
    cases o with
    | none => simp [List.enumFrom, List.filterMap_cons, List.findIdx?, ih]
    | some e => simp [List.enumFrom, List.filterMap_cons, List.findIdx?]

theorem acceptedImages_enumFrom_mem {E : Type} (imgs : List (Option E)) :
    ∀ (n i : ℕ) (e : E), imgs.get? i = some (some e) →
    (n + i, e) ∈ (List.enumFrom n imgs).filterMap
      (fun ie => ie.2.map (fun e => (ie.1, e))) := by
  induction imgs with
  | nil => intro n i e h; simp at h
  | cons o rest ih =>
    intro n i e h
    cases i with
    | zero =>
      simp at h
      subst h
      simp [List.enumFrom, List.filterMap_cons]
    | succ i =>
      have hmem := ih (n + 1) i e h
      have h2 : n + (i + 1) = n + 1 + i := by omega
      rw [h2]
      cases o with
      | none => exact hmem
      | some e' => exact List.mem_cons_of_mem _ hmem

theorem acceptedImages_enumFrom_src {E : Type} (imgs : List (Option E)) :
    ∀ (n : ℕ) (x : ℕ × E),
    x ∈ (List.enumFrom n imgs).filterMap
      (fun ie => ie.2.map (fun e => (ie.1, e))) →
    ∃ i : ℕ, imgs.get? i = some (some x.2) ∧ x.1 = n + i := by
  induction imgs with
  | nil => intro n x hx; simp at hx
  | cons o rest ih =>
    intro n x hx
    cases o with
    | none =>
      obtain ⟨i, hi, hx1⟩ := ih (n + 1) x hx
      exact ⟨i + 1, hi, by omega⟩
    | some e' =>
      rcases List.mem_cons.mp hx with rfl | hx
      · exact ⟨0, rfl, by simp⟩
      · obtain ⟨i, hi, hx1⟩ := ih (n + 1) x hx
        exact ⟨i + 1, hi, by omega⟩

/-- C9: enrollment skips every raster yielding no embedding and persists one
template per accepted raster; it reports the count of accepted rasters (with
their filenames), and when at least one raster is accepted the person's
canonical display photo is set from the first accepted raster only —
e.g. 3 rasters of which 1 yields no face give accepted count 2 and the photo
of the first accepted raster. -/
theorem register_face_spec {E : Type} (s : FaceStore E) (pid : ℕ)
    (imgs : List (Option E)) (hp : pid ∈ s.personnel) :
    ((register_face s pid imgs).1
      = .registered (imgs.countP (fun o => o.isSome))
          ((acceptedImages imgs).map Prod.fst)) ∧
    (∀ (i : ℕ) (e : E), imgs.get? i = some (some e) →
      (⟨pid, i, e⟩ : FaceDataRow E) ∈ (register_face s pid imgs).2.face_data) ∧
    (∀ d ∈ (register_face s pid imgs).2.face_data, d ∈ s.face_data ∨
      ∃ e : E, imgs.get? d.filename = some (some e) ∧ d = ⟨pid, d.filename, e⟩) ∧
    (∀ i₀ : ℕ, imgs.findIdx? (fun o => o.isSome) = some i₀ →
      (register_face s pid imgs).2.profile_image pid = some i₀) ∧
    (imgs.findIdx? (fun o => o.isSome) = none →
      (register_face s pid imgs).2.profile_image = s.profile_image) ∧
    (register_face wFaceStore 7 [none, some 11, some 22]).1
      = .registered 2 [1, 2] ∧
    (register_face wFaceStore 7 [none, some 11, some 22]).2.profile_image 7
      = some 1 := by
  have henum : imgs.enum = List.enumFrom 0 imgs := rfl
  refine ⟨?_, ?_, ?_, ?_, ?_, by decide, by decide⟩
  · unfold register_face
    rw [if_pos hp]
    dsimp only
    unfold acceptedImages
    rw [List.length_map, henum, acceptedImages_enumFrom_length imgs 0]
  · intro i e h
    unfold register_face
    rw [if_pos hp]
    dsimp only
    refine List.mem_append.mpr (Or.inr ?_)
    have hmem := acceptedImages_enumFrom_mem imgs 0 i e h
    have := List.mem_map_of_mem
      (fun ie : ℕ × E => (⟨pid, ie.1, ie.2⟩ : FaceDataRow E)) hmem
    simpa [acceptedImages, henum] using this
  · intro d hd
    unfold register_face at hd
    rw [if_pos hp] at hd
    dsimp only at hd
    rcases List.mem_append.mp hd with hd | hd
    · exact Or.inl hd
    · right
      obtain ⟨x, hx, rfl⟩ := List.mem_map.mp hd
      obtain ⟨i, hi, hx1⟩ := acceptedImages_enumFrom_src imgs 0 x
        (by simpa [acceptedImages, henum] using hx)
      have hix : x.1 = i := by omega
      exact ⟨x.2, by rw [show (FaceDataRow.mk pid x.1 x.2).filename = i from hix]; exact hi,
        by rw [show (FaceDataRow.mk pid x.1 x.2).filename = x.1 from rfl]⟩
  · intro i₀ h
    unfold register_face
    rw [if_pos hp]
    dsimp only
    have hh : (((List.enumFrom 0 imgs).filterMap
        (fun ie => ie.2.map (fun e => (ie.1, e)))).map Prod.fst).head?
        = imgs.findIdx? (fun o => o.isSome) 0 :=
      acceptedImages_enumFrom_head imgs 0
    rw [h] at hh
    rw [show ((acceptedImages imgs).map Prod.fst).head?
      = (((List.enumFrom 0 imgs).filterMap
        (fun ie => ie.2.map (fun e => (ie.1, e)))).map Prod.fst).head? from rfl]
    rw [hh]
    simp
  · intro h
    unfold register_face
    rw [if_pos hp]
    dsimp only
    have hh : (((List.enumFrom 0 imgs).filterMap
        (fun ie => ie.2.map (fun e => (ie.1, e)))).map Prod.fst).head?
        = imgs.findIdx? (fun o => o.isSome) 0 :=
      acceptedImages_enumFrom_head imgs 0
    rw [h] at hh
    rw [show ((acceptedImages imgs).map Prod.fst).head?
      = (((List.enumFrom 0 imgs).filterMap
        (fun ie => ie.2.map (fun e => (ie.1, e)))).map Prod.fst).head? from rfl]
    rw [hh]

/-- Witness for C9: enrolling three rasters, the first of which yields no
embedding, into the empty store. -/
theorem register_face_spec_witness :
    7 ∈ wFaceStore.personnel ∧
    (((register_face wFaceStore 7 [none, some 11, some 22]).1
      = .registered (([none, some 11, some 22] : List (Option ℕ)).countP
          (fun o => o.isSome))
          ((acceptedImages [none, some 11, some 22]).map Prod.fst)) ∧
    (∀ (i : ℕ) (e : ℕ),
      ([none, some 11, some 22] : List (Option ℕ)).get? i = some (some e) →
      (⟨7, i, e⟩ : FaceDataRow ℕ)
        ∈ (register_face wFaceStore 7 [none, some 11, some 22]).2.face_data) ∧
    (∀ d ∈ (register_face wFaceStore 7 [none, some 11, some 22]).2.face_data,
      d ∈ wFaceStore.face_data ∨
      ∃ e : ℕ, ([none, some 11, some 22] : List (Option ℕ)).get? d.filename
          = some (some e) ∧ d = ⟨7, d.filename, e⟩) ∧
    (∀ i₀ : ℕ, ([none, some 11, some 22] : List (Option ℕ)).findIdx?
        (fun o => o.isSome) = some i₀ →
      (register_face wFaceStore 7
        [none, some 11, some 22]).2.profile_image 7 = some i₀) ∧
    (([none, some 11, some 22] : List (Option ℕ)).findIdx?
        (fun o => o.isSome) = none →
      (register_face wFaceStore 7 [none, some 11, some 22]).2.profile_image
        = wFaceStore.profile_image) ∧
    (register_face wFaceStore 7 [none, some 11, some 22]).1
      = .registered 2 [1, 2] ∧
    (register_face wFaceStore 7 [none, some 11, some 22]).2.profile_image 7
      = some 1) :=
  ⟨by decide,
   register_face_spec wFaceStore 7 [none, some 11, some 22] (by decide)⟩

/-- Counterexample to C3 as stated: in `wTwoRecent` the most recent action of
person 7 is at 199995, so at instant 200000 (cooldown 60 s) the claim's
reading demands remaining seconds 60 - (200000 - 199995) = 55; the code
answers from the first matching row of the unordered query, whose recent
action is the time-out at 199950, and reports 10 instead. -/
theorem cooldown_remainder_not_from_most_recent :
    ((199995 : ℤ) ∈ actionInstants wTwoRecent 7 ∧
     (∀ t ∈ actionInstants wTwoRecent 7, t ≤ 199995) ∧
     (200000 : ℤ) - 199995 < 60) ∧
    (process_attendance 60 28800 wTwoRecent 7 5 none 200000).1
      = .cooldown 10 (some 100000) (some 199950) ∧
    (10 : ℤ) ≠ 60 - (200000 - 199995) := by decide
